import Mathlib

set_option linter.unusedSectionVars false
set_option linter.unusedVariables false

/-!
Verification model of the DES ("Distinct Elements in Streams") estimator
(`src/des/algorithm.py`), a randomized distinct-element counter.

Modelling choices:
* Python float arithmetic in `calculate_threshold` is idealized over `ℝ`
  (the quantities involved — `12/ε²`, `ln(8n/δ)`, `ceil` — are real-valued).
* The estimator's per-item state machine uses only comparisons of random
  draws against `cur_probability` (a dyadic rational) and exact halving, so
  it is embedded over `ℚ`.
* The pseudo-random generator `random.Random(seed)` is modelled as an
  explicit stream `rand : ℕ → ℚ` of draws together with a cursor stored in
  the state; re-seeding (in `reset`) corresponds to resetting the cursor
  to zero.  Determinism of the generator for a fixed seed is thereby
  explicit: a fixed seed denotes a fixed stream.
* The Python `set` accumulator is modelled as a list without duplicates;
  the set-comprehension down-sample draws one fresh value per element in
  iteration order.
* A raised exception is modelled as `some e : Option DESError` returned
  NEXT TO the state at the moment of the raise, since in Python the
  instance keeps all mutations performed before the exception.
* The stream argument is a list of `Option α`: `next(stream, None)`
  cannot distinguish a yielded `None` from exhaustion, so the loop stops
  at the first `none`.
-/

/-- Errors raised by the algorithm: `ValueError` for invalid parameters
(including the `assert thresh > 0`), `OverflowError` for a failed
down-sample. -/
inductive DESError where
  | invalidParameter
  | overflow
deriving DecidableEq

open Real in
/-- The value `math.ceil((12.0 / math.pow(relative_error_tolerance, 2)) *
math.log((8.0 * stream_size) / failure_probability))` computed by
`calculate_threshold` once its guards pass (float arithmetic idealized
over `ℝ`). -/
noncomputable def thresholdValue (stream_size : ℤ)
    (relative_error_tolerance failure_probability : ℝ) : ℤ :=
  ⌈(12 / relative_error_tolerance ^ 2) *
    Real.log ((8 * (stream_size : ℝ)) / failure_probability)⌉

/-- `calculate_threshold(stream_size, relative_error_tolerance,
failure_probability)`: three guards raising `ValueError`, then the ceiling
formula. -/
noncomputable def calculate_threshold (stream_size : ℤ)
    (relative_error_tolerance failure_probability : ℝ) : Except DESError ℤ :=
  if relative_error_tolerance ≤ 0 ∨ 1 ≤ relative_error_tolerance then
    Except.error DESError.invalidParameter
  else if failure_probability ≤ 0 ∨ 1 ≤ failure_probability then
    Except.error DESError.invalidParameter
  else if stream_size ≤ 0 then
    Except.error DESError.invalidParameter
  else
    Except.ok (thresholdValue stream_size relative_error_tolerance failure_probability)

/-- The mutable state of a `DES` instance (`self.acc_set`,
`self.cur_probability`, `self._threshold_hit_count`,
`self.distinct_item_count`), plus the cursor of the random stream
(position of `self.rand`). -/
structure DESState (α : Type) where
  acc_set : List α
  cur_probability : ℚ
  threshold_hit_count : ℕ
  distinct_item_count : ℤ
  cursor : ℕ
deriving DecidableEq

namespace DES

variable {α : Type} [DecidableEq α]

/-- `DES.reset`: the state after `reset()` (also the state of a freshly
constructed instance, since `__init__` ends by calling `reset()`);
re-seeding `self.rand` from the stored seed resets the cursor to 0. -/
def reset : DESState α :=
  { acc_set := [], cur_probability := 1, threshold_hit_count := 0,
    distinct_item_count := 0, cursor := 0 }

/-- The set-comprehension down-sample
`{v for v in self.acc_set if self.rand.random() >= 0.5}`:
one fresh draw per element, element kept iff its draw is ≥ 0.5.
Returns the retained elements and the advanced cursor. -/
def downsampleStep (rand : ℕ → ℚ) : List α → ℕ → List α × ℕ
  | [], k => ([], k)
  | v :: rest, k =>
      let r := downsampleStep rand rest (k + 1)
      (if rand k ≥ 1/2 then v :: r.1 else r.1, r.2)

/-- Steps (remove-if-present, draw, insert-if-below-probability) of the
per-item update: the accumulator after
`if item in self.acc_set: self.acc_set.remove(item)` followed by
`if self.rand.random() < self.cur_probability: self.acc_set.add(item)`,
together with the advanced cursor. -/
def afterInsert (rand : ℕ → ℚ) (item : α) (s : DESState α) : List α × ℕ :=
  let acc₁ := s.acc_set.erase item
  ((if rand s.cursor < s.cur_probability then acc₁ ++ [item] else acc₁),
    s.cursor + 1)

/-- One per-item update of `DES.distinct` (the body of the `with
self.rlock` block inside the stream loop): remove/draw/insert, then, when
the accumulator has reached the threshold, increment the hit counter,
down-sample, halve `cur_probability`, and raise `OverflowError` if the
set is still at or above the threshold.  The returned state holds every
mutation performed before a raise. -/
def stepItem (rand : ℕ → ℚ) (thresh : ℕ) (item : α) (s : DESState α) :
    DESState α × Option DESError :=
  let a := afterInsert rand item s
  if thresh ≤ a.1.length then
    let d := downsampleStep rand a.1 a.2
    ({ acc_set := d.1, cur_probability := s.cur_probability / 2,
       threshold_hit_count := s.threshold_hit_count + 1,
       distinct_item_count := s.distinct_item_count, cursor := d.2 },
      if thresh ≤ d.1.length then some DESError.overflow else none)
  else
    ({ s with acc_set := a.1, cursor := a.2 }, none)

/-- The estimate recomputation
`self.distinct_item_count = int(math.floor(len(self.acc_set) / self.cur_probability))`. -/
def setEstimate (s : DESState α) : DESState α :=
  { s with distinct_item_count := ⌊(s.acc_set.length : ℚ) / s.cur_probability⌋ }

/-- The `while (item := next(stream, None)) is not None` loop of
`DES.distinct` over the items actually consumed.  `i` is the poll
counter; each poll publishes the recomputed estimate (collected in the
returned list) and resets `i` to 0 before the `i += 1`.  After the loop,
the estimate is recomputed once more unconditionally.  An error from a
per-item update aborts the loop, keeping the state at the raise. -/
def distinctLoop (rand : ℕ → ℚ) (thresh pollRate : ℕ) :
    List α → ℕ → DESState α → DESState α × List ℤ × Option DESError
  | [], _, s =>
      let s' := setEstimate s
      (s', [s'.distinct_item_count], none)
  | item :: rest, i, s =>
      let p := stepItem rand thresh item s
      match p.2 with
      | some e => (p.1, [], some e)
      | none =>
          if i % pollRate = 0 then
            let s₂ := setEstimate p.1
            let r := distinctLoop rand thresh pollRate rest 1 s₂
            (r.1, s₂.distinct_item_count :: r.2.1, r.2.2)
          else
            distinctLoop rand thresh pollRate rest (i + 1) p.1

/-- The items `DES.distinct` consumes from the stream:
`next(stream, None)` yields `none` both at exhaustion and for a yielded
`None`, so consumption stops at the first `none`. -/
def consumedItems : List (Option α) → List α
  | [] => []
  | none :: _ => []
  | some a :: rest => a :: consumedItems rest

/-- `DES.distinct` with the threshold already resolved to `threshold`
(the resolved value of `self._threshold`): optional `reset()`, the
`assert thresh > 0` (raising before any item is processed), then the
item loop started with poll counter `i = 0`.  Returns the state the
instance is left in, the published intermediate estimates, and the
raised error if any. -/
def distinctRun (rand : ℕ → ℚ) (threshold : ℤ) (pollRate : ℕ)
    (reset_state : Bool) (stream : List (Option α)) (s : DESState α) :
    DESState α × List ℤ × Option DESError :=
  let s₀ := if reset_state then DES.reset else s
  if threshold ≤ 0 then (s₀, [], some DESError.invalidParameter)
  else distinctLoop rand threshold.toNat pollRate (consumedItems stream) 0 s₀

/-- The value returned by `DES.distinct` (`self.distinct_item_count` of
the final state), or the raised error. -/
def distinct (rand : ℕ → ℚ) (threshold : ℤ) (pollRate : ℕ)
    (reset_state : Bool) (stream : List (Option α)) (s : DESState α) :
    Except DESError ℤ :=
  let r := distinctRun rand threshold pollRate reset_state stream s
  match r.2.2 with
  | none => Except.ok r.1.distinct_item_count
  | some e => Except.error e

/-! ### Spec-side restatement of the per-item update

The following two definitions follow the WORDS of the specification of the
per-item update (spec §4.2 steps a–c), to be compared with `stepItem`,
which is translated from the code. -/

/-- Spec wording: during a down-sample event, "every element of the
accumulator is independently retained iff a fresh uniform draw is
≥ 0.5". -/
def specRetain (rand : ℕ → ℚ) : List α → ℕ → List α × ℕ
  | [], k => ([], k)
  | v :: rest, k =>
      let r := specRetain rand rest (k + 1)
      (if rand k ≥ 1/2 then v :: r.1 else r.1, r.2)

/-- Spec wording of one per-item update, in the spec's order:
(a) "if the item is already present in the accumulator it is removed";
(b) "one uniform random value is drawn and the item is inserted if and
only if that value is less than the current retentionProbability";
(c) "if the accumulator's size is ≥ the resolved threshold, a down-sample
event runs": every element independently retained iff a fresh draw is
≥ 0.5, retentionProbability is halved, downsampleEventCount is
incremented; if the resulting size is still ≥ the threshold the event
fails with Overflow (spec §4.2.3c). -/
def specStep (rand : ℕ → ℚ) (thresh : ℕ) (item : α) (s : DESState α) :
    DESState α × Option DESError :=
  let accA := if item ∈ s.acc_set then s.acc_set.erase item else s.acc_set
  let accB := if rand s.cursor < s.cur_probability then accA ++ [item] else accA
  let k := s.cursor + 1
  if thresh ≤ accB.length then
    let d := specRetain rand accB k
    ({ acc_set := d.1, cur_probability := s.cur_probability / 2,
       threshold_hit_count := s.threshold_hit_count + 1,
       distinct_item_count := s.distinct_item_count, cursor := d.2 },
      if thresh ≤ d.1.length then some DESError.overflow else none)
  else
    ({ s with acc_set := accB, cursor := k }, none)

end DES

/-! ### Helper lemmas -/

namespace DES

variable {α : Type} [DecidableEq α]

lemma specRetain_eq_downsampleStep (rand : ℕ → ℚ) (l : List α) (k : ℕ) :
    specRetain rand l k = downsampleStep rand l k := by
  induction l generalizing k with
  | nil => rfl
  | cons v rest ih => simp [specRetain, downsampleStep, ih]

lemma stepItem_snd_none_length {rand : ℕ → ℚ} {thresh : ℕ} {item : α}
    {s : DESState α} (h : (stepItem rand thresh item s).2 = none) :
    (stepItem rand thresh item s).1.acc_set.length < thresh := by
  simp only [stepItem] at *
  by_cases hthr : thresh ≤ (afterInsert rand item s).1.length
  · simp only [if_pos hthr] at h ⊢
    by_cases h2 : thresh ≤ (downsampleStep rand (afterInsert rand item s).1
        (afterInsert rand item s).2).1.length
    · simp [h2] at h
    · simpa using lt_of_not_le h2
  · simp only [if_neg hthr] at h ⊢
    simpa using lt_of_not_le hthr

/-- Each per-item update either leaves `cur_probability` and
`threshold_hit_count` unchanged, or exactly halves the former and
increments the latter by one (also when it raises). -/
lemma stepItem_prob_hit (rand : ℕ → ℚ) (thresh : ℕ) (item : α)
    (s : DESState α) :
    ((stepItem rand thresh item s).1.cur_probability = s.cur_probability ∧
      (stepItem rand thresh item s).1.threshold_hit_count = s.threshold_hit_count) ∨
    ((stepItem rand thresh item s).1.cur_probability = s.cur_probability / 2 ∧
      (stepItem rand thresh item s).1.threshold_hit_count = s.threshold_hit_count + 1) := by
  simp only [stepItem]
  split
  · right; exact ⟨rfl, rfl⟩
  · left; exact ⟨rfl, rfl⟩

lemma setEstimate_acc_set (s : DESState α) :
    (setEstimate s).acc_set = s.acc_set := rfl

lemma setEstimate_cur_probability (s : DESState α) :
    (setEstimate s).cur_probability = s.cur_probability := rfl

lemma setEstimate_threshold_hit_count (s : DESState α) :
    (setEstimate s).threshold_hit_count = s.threshold_hit_count := rfl

lemma prob_halving_trans {p₁ p₂ p₃ : ℚ} {h₁ h₂ h₃ : ℕ}
    (a : h₁ ≤ h₂ ∧ p₂ = p₁ / 2 ^ (h₂ - h₁))
    (b : h₂ ≤ h₃ ∧ p₃ = p₂ / 2 ^ (h₃ - h₂)) :
    h₁ ≤ h₃ ∧ p₃ = p₁ / 2 ^ (h₃ - h₁) := by
  obtain ⟨hab, hpab⟩ := a
  obtain ⟨hbc, hpbc⟩ := b
  refine ⟨le_trans hab hbc, ?_⟩
  rw [hpbc, hpab, div_div, ← pow_add]
  rw [← Nat.sub_add_sub_cancel hbc hab, add_comm]

/-- Across a whole run of the loop, `threshold_hit_count` never decreases
and `cur_probability` is divided by exactly `2` to the number of new
down-sample events (also when the loop aborts with an error). -/
lemma distinctLoop_prob_hit (rand : ℕ → ℚ) (thresh pollRate : ℕ)
    (items : List α) (i : ℕ) (s : DESState α) :
    s.threshold_hit_count ≤ (distinctLoop rand thresh pollRate items i s).1.threshold_hit_count ∧
    (distinctLoop rand thresh pollRate items i s).1.cur_probability =
      s.cur_probability /
        2 ^ ((distinctLoop rand thresh pollRate items i s).1.threshold_hit_count
              - s.threshold_hit_count) := by
  induction items generalizing i s with
  | nil => simp [distinctLoop, setEstimate]
  | cons item rest ih =>
      have hstep : s.threshold_hit_count ≤ (stepItem rand thresh item s).1.threshold_hit_count ∧
          (stepItem rand thresh item s).1.cur_probability =
            s.cur_probability /
              2 ^ ((stepItem rand thresh item s).1.threshold_hit_count
                    - s.threshold_hit_count) := by
        rcases stepItem_prob_hit rand thresh item s with ⟨hp, hh⟩ | ⟨hp, hh⟩
        · simp [hp, hh]
        · simp [hp, hh, pow_one]
      rw [distinctLoop]
      rcases he : (stepItem rand thresh item s).2 with _ | e
      · simp only
        split
        · exact prob_halving_trans hstep
            (by simpa [setEstimate] using ih 1 (setEstimate (stepItem rand thresh item s).1))
        · exact prob_halving_trans hstep (ih (i + 1) (stepItem rand thresh item s).1)
      · simpa using hstep

/-- The down-sampling bound is preserved along a non-raising run. -/
lemma distinctLoop_length_lt (rand : ℕ → ℚ) (thresh pollRate : ℕ)
    (items : List α) (i : ℕ) (s : DESState α)
    (h0 : s.acc_set.length < thresh)
    (he : (distinctLoop rand thresh pollRate items i s).2.2 = none) :
    (distinctLoop rand thresh pollRate items i s).1.acc_set.length < thresh := by
  induction items generalizing i s with
  | nil => simpa [distinctLoop, setEstimate] using h0
  | cons item rest ih =>
      rw [distinctLoop] at *
      rcases hs : (stepItem rand thresh item s).2 with _ | e
      · have hlen := stepItem_snd_none_length hs
        simp only [hs] at he ⊢
        split at he <;> split
        · exact ih 1 _ (by simpa [setEstimate] using hlen) (by simpa using he)
        · simp_all
        · simp_all
        · exact ih (i + 1) _ hlen he
      · simp [hs] at he

/-- If the loop terminates without raising, the final state is an
estimate recomputation of some intermediate state, hence its published
count equals the floor formula on its own accumulator and probability. -/
lemma distinctLoop_none_estimate (rand : ℕ → ℚ) (thresh pollRate : ℕ)
    (items : List α) (i : ℕ) (s : DESState α)
    (h : (distinctLoop rand thresh pollRate items i s).2.2 = none) :
    (distinctLoop rand thresh pollRate items i s).1.distinct_item_count =
      ⌊((distinctLoop rand thresh pollRate items i s).1.acc_set.length : ℚ) /
        (distinctLoop rand thresh pollRate items i s).1.cur_probability⌋ := by
  induction items generalizing i s with
  | nil => simp [distinctLoop, setEstimate]
  | cons item rest ih =>
      rw [distinctLoop] at *
      rcases he : (stepItem rand thresh item s).2 with _ | e
      · simp only [he] at h ⊢
        split at h <;> split
        · exact ih 1 _ (by simpa using h)
        · simp_all
        · simp_all
        · exact ih (i + 1) _ h
      · simp [he] at h

end DES

/-! ### Claim theorems -/

namespace DES

variable {α : Type} [DecidableEq α]

/-- C1: for every item processed by `DES.distinct`, the per-item update
performs exactly the spec's steps in order: remove the item if present,
draw one uniform value and insert the item iff the draw is below the
current retention probability, then, when the accumulator size has
reached the resolved threshold, run a down-sample event (one fresh draw
per element, retained iff the draw is ≥ 0.5; probability halved;
down-sample event count incremented).  Stated as: the code's per-item
update `stepItem` coincides with `specStep`, the update written from the
spec's words (`distinctLoop`, the stream loop of `DES.distinct`, applies
`stepItem` to every consumed item). -/
theorem C1_per_item_update (rand : ℕ → ℚ) (thresh : ℕ) (item : α)
    (s : DESState α) :
    stepItem rand thresh item s = specStep rand thresh item s := by
  simp only [stepItem, specStep, afterInsert, specRetain_eq_downsampleStep]
  by_cases hm : item ∈ s.acc_set
  · simp [hm]
  · simp [hm, List.erase_of_not_mem hm]

/-- C2: for every stream, random stream, and positive resolved threshold,
immediately after each per-item update that does not raise Overflow the
accumulator's size is below the threshold; consequently the bound holds
after every update of a run of the stream loop. -/
theorem C2_accumulator_bounded (rand : ℕ → ℚ) (thresh pollRate : ℕ)
    (ht : 0 < thresh) :
    (∀ (item : α) (s : DESState α), (stepItem rand thresh item s).2 = none →
       (stepItem rand thresh item s).1.acc_set.length < thresh) ∧
    (∀ (items : List α) (i : ℕ) (s : DESState α), s.acc_set.length < thresh →
       (distinctLoop rand thresh pollRate items i s).2.2 = none →
       (distinctLoop rand thresh pollRate items i s).1.acc_set.length < thresh) :=
  ⟨fun _ _ h => stepItem_snd_none_length h,
   fun items i s h0 he => distinctLoop_length_lt rand thresh pollRate items i s h0 he⟩

/-- C2 witness: a concrete non-raising update (threshold 2, draw 0,
item 0 inserted into the fresh accumulator) leaves the accumulator
strictly below the threshold. -/
theorem C2_accumulator_bounded_witness :
    (stepItem (fun _ => (0 : ℚ)) 2 (0 : ℕ) DES.reset).1.acc_set.length < 2 :=
  (C2_accumulator_bounded (fun _ => (0 : ℚ)) 2 10 (by norm_num)).1 0 DES.reset
    (by norm_num [stepItem, afterInsert, DES.reset])

/-- C8: for a fixed seed (hence a fixed random stream) and a fixed item
source, a run of `DES.distinct` with `reset_state := true` from any prior
instance state is identical — same published estimate sequence, same
down-sample event count, same final state and result — to a run on a
freshly constructed instance with the same seed (`DES.reset`, the state
`__init__` ends in): `reset()` restores bit-for-bit identical behavior,
and two runs with the same seed and stream are the same run. -/
theorem C8_deterministic_replay (rand : ℕ → ℚ) (threshold : ℤ)
    (pollRate : ℕ) (stream : List (Option α)) (s : DESState α) :
    distinctRun rand threshold pollRate true stream s =
      distinctRun rand threshold pollRate false stream DES.reset := by
  simp [distinctRun]

/-- C3: for every `stream_size > 0` and `ε, δ ∈ (0,1)`,
`calculate_threshold` returns exactly
`⌈(12/ε²) · ln((8·stream_size)/δ)⌉`, and this value is positive. -/
theorem C3_threshold_formula (n : ℤ) (ε δ : ℝ)
    (hn : 0 < n) (hε0 : 0 < ε) (hε1 : ε < 1) (hδ0 : 0 < δ) (hδ1 : δ < 1) :
    calculate_threshold n ε δ =
      Except.ok ⌈(12 / ε ^ 2) * Real.log ((8 * (n : ℝ)) / δ)⌉ ∧
    0 < ⌈(12 / ε ^ 2) * Real.log ((8 * (n : ℝ)) / δ)⌉ := by
  have hg1 : ¬(ε ≤ 0 ∨ 1 ≤ ε) := by push_neg; exact ⟨hε0, hε1⟩
  have hg2 : ¬(δ ≤ 0 ∨ 1 ≤ δ) := by push_neg; exact ⟨hδ0, hδ1⟩
  have hg3 : ¬(n ≤ 0) := not_le.mpr hn
  have hn1 : (1 : ℝ) ≤ (n : ℝ) := by exact_mod_cast hn
  have harg : (1 : ℝ) < (8 * (n : ℝ)) / δ := by
    rw [one_lt_div hδ0]
    nlinarith
  have hpos : 0 < (12 / ε ^ 2) * Real.log ((8 * (n : ℝ)) / δ) :=
    mul_pos (by positivity) (Real.log_pos harg)
  exact ⟨by simp [calculate_threshold, thresholdValue, hg1, hg2, hg3],
    Int.ceil_pos.mpr hpos⟩

/-- C3 witness: at `stream_size = 1`, `ε = 1/2`, `δ = 1/2` the function
returns the ceiling formula and the value is positive. -/
theorem C3_threshold_formula_witness :
    calculate_threshold 1 (1/2) (1/2) =
      Except.ok ⌈(12 / ((1:ℝ)/2) ^ 2) * Real.log ((8 * ((1:ℤ) : ℝ)) / ((1:ℝ)/2))⌉ ∧
    0 < ⌈(12 / ((1:ℝ)/2) ^ 2) * Real.log ((8 * ((1:ℤ) : ℝ)) / ((1:ℝ)/2))⌉ :=
  C3_threshold_formula 1 (1/2) (1/2) (by norm_num) (by norm_num) (by norm_num)
    (by norm_num) (by norm_num)

/-- C10: over valid parameters, `calculate_threshold` is monotone:
decreasing ε, decreasing δ, or increasing the stream size (in any
combination) never decreases the returned threshold, and on valid
parameters the returned threshold is the formula value. -/
theorem C10_threshold_monotone (n n' : ℤ) (ε ε' δ δ' : ℝ)
    (hn : 0 < n) (hnn : n ≤ n') (hε'0 : 0 < ε') (hεε : ε' ≤ ε) (hε1 : ε < 1)
    (hδ'0 : 0 < δ') (hδδ : δ' ≤ δ) (hδ1 : δ < 1) :
    thresholdValue n ε δ ≤ thresholdValue n' ε' δ' ∧
    calculate_threshold n ε δ = Except.ok (thresholdValue n ε δ) := by
  have hε0 : 0 < ε := lt_of_lt_of_le hε'0 hεε
  have hδ0 : 0 < δ := lt_of_lt_of_le hδ'0 hδδ
  have hn1 : (1 : ℝ) ≤ (n : ℝ) := by exact_mod_cast hn
  have hnn' : (n : ℝ) ≤ (n' : ℝ) := by exact_mod_cast hnn
  constructor
  · apply Int.ceil_le_ceil
    have harg : (1 : ℝ) < (8 * (n : ℝ)) / δ := by
      rw [one_lt_div hδ0]
      nlinarith
    have hxpos : (0 : ℝ) < (8 * (n : ℝ)) / δ := lt_trans one_pos harg
    have hxy : (8 * (n : ℝ)) / δ ≤ (8 * (n' : ℝ)) / δ' :=
      div_le_div₀ (by nlinarith) (by nlinarith) hδ'0 hδδ
    have hlog0 : 0 ≤ Real.log ((8 * (n : ℝ)) / δ) := le_of_lt (Real.log_pos harg)
    have hlog : Real.log ((8 * (n : ℝ)) / δ) ≤ Real.log ((8 * (n' : ℝ)) / δ') :=
      Real.log_le_log hxpos hxy
    have ha : 12 / ε ^ 2 ≤ 12 / ε' ^ 2 :=
      div_le_div_of_nonneg_left (by norm_num) (by positivity)
        (by nlinarith)
    exact mul_le_mul ha hlog hlog0 (by positivity)
  · have hg1 : ¬(ε ≤ 0 ∨ 1 ≤ ε) := by push_neg; exact ⟨hε0, hε1⟩
    have hg2 : ¬(δ ≤ 0 ∨ 1 ≤ δ) := by push_neg; exact ⟨hδ0, hδ1⟩
    have hg3 : ¬(n ≤ 0) := not_le.mpr hn
    simp [calculate_threshold, hg1, hg2, hg3]

/-- C10 witness: tightening `(n, ε, δ) = (1, 1/2, 1/2)` to
`(2, 1/4, 1/4)` does not decrease the threshold. -/
theorem C10_threshold_monotone_witness :
    thresholdValue 1 (1/2) (1/2) ≤ thresholdValue 2 (1/4) (1/4) ∧
    calculate_threshold 1 (1/2) (1/2) = Except.ok (thresholdValue 1 (1/2) (1/2)) :=
  C10_threshold_monotone 1 2 (1/2) (1/4) (1/2) (1/4) (by norm_num) (by norm_num)
    (by norm_num) (by norm_num) (by norm_num) (by norm_num) (by norm_num) (by norm_num)

/-- C4: whenever the estimate is recomputed — at each poll
(`i % pollRate = 0`) and once unconditionally after the stream is
exhausted — `distinct_item_count` is set to
`⌊size(accumulator) / cur_probability⌋`; any non-raising run ends with
the final state carrying exactly that value of its own accumulator and
probability, it is nonnegative (the probability being positive), and
`DES.distinct` returns it. -/
theorem C4_estimate_recomputation (rand : ℕ → ℚ) (thresh pollRate : ℕ)
    (s : DESState α) (hp : 0 < s.cur_probability) :
    (setEstimate s).distinct_item_count =
        ⌊(s.acc_set.length : ℚ) / s.cur_probability⌋ ∧
    (∀ i, distinctLoop rand thresh pollRate [] i s =
        (setEstimate s, [(setEstimate s).distinct_item_count], none)) ∧
    (∀ (item : α) rest i, (stepItem rand thresh item s).2 = none →
        i % pollRate = 0 →
        distinctLoop rand thresh pollRate (item :: rest) i s =
          ((distinctLoop rand thresh pollRate rest 1
              (setEstimate (stepItem rand thresh item s).1)).1,
            (setEstimate (stepItem rand thresh item s).1).distinct_item_count ::
              (distinctLoop rand thresh pollRate rest 1
                (setEstimate (stepItem rand thresh item s).1)).2.1,
            (distinctLoop rand thresh pollRate rest 1
              (setEstimate (stepItem rand thresh item s).1)).2.2)) ∧
    (∀ items i, (distinctLoop rand thresh pollRate items i s).2.2 = none →
        (distinctLoop rand thresh pollRate items i s).1.distinct_item_count =
          ⌊((distinctLoop rand thresh pollRate items i s).1.acc_set.length : ℚ) /
            (distinctLoop rand thresh pollRate items i s).1.cur_probability⌋ ∧
        0 ≤ (distinctLoop rand thresh pollRate items i s).1.distinct_item_count) ∧
    (∀ (threshold : ℤ) (stream : List (Option α)) b (s₀ : DESState α),
        (distinctRun rand threshold pollRate b stream s₀).2.2 = none →
        distinct rand threshold pollRate b stream s₀ =
          Except.ok (distinctRun rand threshold pollRate b stream s₀).1.distinct_item_count) := by
  refine ⟨rfl, fun i => by simp [distinctLoop], ?_, ?_, ?_⟩
  · intro item rest i hstep hpoll
    rw [distinctLoop]
    simp [hstep, hpoll]
  · intro items i hnone
    have hfloor := distinctLoop_none_estimate rand thresh pollRate items i s hnone
    refine ⟨hfloor, ?_⟩
    have hprob := (distinctLoop_prob_hit rand thresh pollRate items i s).2
    have hppos : 0 < (distinctLoop rand thresh pollRate items i s).1.cur_probability := by
      rw [hprob]; positivity
    rw [hfloor]
    exact Int.floor_nonneg.mpr (div_nonneg (by positivity) hppos.le)
  · intro threshold stream b s₀ h
    simp [distinct, h]

/-- C4 witness: with the fresh state (probability 1), a recomputation
publishes exactly the floor of accumulator size over probability. -/
theorem C4_estimate_recomputation_witness :
    (setEstimate (DES.reset : DESState ℕ)).distinct_item_count =
      ⌊((DES.reset : DESState ℕ).acc_set.length : ℚ) /
        (DES.reset : DESState ℕ).cur_probability⌋ :=
  (C4_estimate_recomputation (fun _ => (0 : ℚ)) 5 10 DES.reset
    (by norm_num [DES.reset])).1

/-- C5: a per-item update raises Overflow iff, with the accumulator
having reached the threshold after the insertion step, the single
halving/pruning pass leaves it still at or above the threshold; the
raise aborts the loop immediately (no further estimates are published)
and `DES.distinct` then returns the error instead of an estimate, with
no retry. -/
theorem C5_overflow_condition (rand : ℕ → ℚ) (thresh pollRate : ℕ)
    (item : α) (s : DESState α) :
    ((stepItem rand thresh item s).2 = some DESError.overflow ↔
      thresh ≤ (afterInsert rand item s).1.length ∧
      thresh ≤ (downsampleStep rand (afterInsert rand item s).1
          (afterInsert rand item s).2).1.length) ∧
    (∀ (rest : List α) i, (stepItem rand thresh item s).2 = some DESError.overflow →
        distinctLoop rand thresh pollRate (item :: rest) i s =
          ((stepItem rand thresh item s).1, [], some DESError.overflow)) ∧
    (∀ (threshold : ℤ) (stream : List (Option α)) b (s₀ : DESState α) e,
        (distinctRun rand threshold pollRate b stream s₀).2.2 = some e →
        distinct rand threshold pollRate b stream s₀ = Except.error e) := by
  refine ⟨?_, ?_, ?_⟩
  · simp only [stepItem]
    by_cases houter : thresh ≤ (afterInsert rand item s).1.length
    · simp only [if_pos houter]
      by_cases hinner : thresh ≤ (downsampleStep rand (afterInsert rand item s).1
          (afterInsert rand item s).2).1.length
      · simp [houter, hinner]
      · simp [houter, hinner]
    · simp [houter]
  · intro rest i h
    rw [distinctLoop]
    simp [h]
  · intro threshold stream b s₀ e h
    simp [distinct, h]

/-- C5 witness: threshold 1, all draws 3/5 — the item is inserted
(3/5 < 1), the set reaches the threshold, the element survives the prune
(3/5 ≥ 0.5), so the pass fails and Overflow is raised. -/
theorem C5_overflow_condition_witness :
    (stepItem (fun _ => (3 : ℚ)/5) 1 (0 : ℕ) DES.reset).2 = some DESError.overflow :=
  (C5_overflow_condition (fun _ => (3 : ℚ)/5) 1 10 0 DES.reset).1.mpr
    ⟨by norm_num [afterInsert, DES.reset],
     by norm_num [afterInsert, downsampleStep, DES.reset]⟩

/-- C7: `cur_probability` changes only by exact halving, each halving
synchronized with exactly one increment of `threshold_hit_count` (the
down-sample event count); across any run of the loop the hit count never
decreases, the probability is divided by exactly 2 to the number of new
events — hence never increases — and it stays in `(0, 1]` whenever it
starts there (as it does from `reset`, where it is 1). -/
theorem C7_retention_probability (rand : ℕ → ℚ) (thresh pollRate : ℕ) :
    (∀ (item : α) (s : DESState α),
       ((stepItem rand thresh item s).1.cur_probability = s.cur_probability ∧
         (stepItem rand thresh item s).1.threshold_hit_count = s.threshold_hit_count) ∨
       ((stepItem rand thresh item s).1.cur_probability = s.cur_probability / 2 ∧
         (stepItem rand thresh item s).1.threshold_hit_count = s.threshold_hit_count + 1)) ∧
    (∀ (items : List α) (i : ℕ) (s : DESState α),
       s.threshold_hit_count ≤
         (distinctLoop rand thresh pollRate items i s).1.threshold_hit_count ∧
       (distinctLoop rand thresh pollRate items i s).1.cur_probability =
         s.cur_probability /
           2 ^ ((distinctLoop rand thresh pollRate items i s).1.threshold_hit_count
                 - s.threshold_hit_count) ∧
       (0 < s.cur_probability →
          0 < (distinctLoop rand thresh pollRate items i s).1.cur_probability ∧
          (distinctLoop rand thresh pollRate items i s).1.cur_probability ≤
            s.cur_probability ∧
          (s.cur_probability ≤ 1 →
            (distinctLoop rand thresh pollRate items i s).1.cur_probability ≤ 1))) := by
  refine ⟨fun item s => stepItem_prob_hit rand thresh item s, fun items i s => ?_⟩
  obtain ⟨hle, heq⟩ := distinctLoop_prob_hit rand thresh pollRate items i s
  refine ⟨hle, heq, fun hp => ?_⟩
  have hpos : 0 < (distinctLoop rand thresh pollRate items i s).1.cur_probability := by
    rw [heq]; positivity
  have hmono : (distinctLoop rand thresh pollRate items i s).1.cur_probability ≤
      s.cur_probability := by
    rw [heq]
    exact div_le_self hp.le (one_le_pow₀ (by norm_num))
  exact ⟨hpos, hmono, fun h1 => le_trans hmono h1⟩

/-- C7 witness: starting from the fresh state (probability 1), after a
run of the loop the probability is positive, has not increased, and is
still at most 1. -/
theorem C7_retention_probability_witness :
    0 < (distinctLoop (fun _ => (0 : ℚ)) 5 10 [] 0 (DES.reset : DESState ℕ)).1.cur_probability ∧
    (distinctLoop (fun _ => (0 : ℚ)) 5 10 [] 0 (DES.reset : DESState ℕ)).1.cur_probability ≤
      (DES.reset : DESState ℕ).cur_probability ∧
    (distinctLoop (fun _ => (0 : ℚ)) 5 10 [] 0 (DES.reset : DESState ℕ)).1.cur_probability ≤ 1 := by
  have h := ((C7_retention_probability (fun _ => (0 : ℚ)) 5 10).2 [] 0
    (DES.reset : DESState ℕ)).2.2 (by norm_num [DES.reset])
  exact ⟨h.1, h.2.1, h.2.2 (by norm_num [DES.reset])⟩

/-- C6 counterexample: the claim "in every such case the error is raised
before any state mutation and the estimator instance is left unchanged"
fails when `reset_state = true`: `DES.distinct` performs the `reset()`
BEFORE resolving the threshold, so a call with a non-positive resolved
threshold on an instance with non-initial state raises
`InvalidParameter` but leaves the instance reset, not unchanged. -/
theorem C6_invalid_parameter_counterexample :
    (distinctRun (fun _ => (0 : ℚ)) 0 10 true []
        ({ acc_set := [7], cur_probability := 1/2, threshold_hit_count := 3,
           distinct_item_count := 5, cursor := 9 } : DESState ℕ)).2.2 =
      some DESError.invalidParameter ∧
    (distinctRun (fun _ => (0 : ℚ)) 0 10 true []
        ({ acc_set := [7], cur_probability := 1/2, threshold_hit_count := 3,
           distinct_item_count := 5, cursor := 9 } : DESState ℕ)).1 ≠
      { acc_set := [7], cur_probability := 1/2, threshold_hit_count := 3,
        distinct_item_count := 5, cursor := 9 } := by
  norm_num [distinctRun, DES.reset]

/-- C6 (amended): `calculate_threshold` fails with `InvalidParameter`
exactly when ε or δ lies outside (0,1) or the stream size is ≤ 0 (a pure
function, so no state is touched), and `DES.distinct` fails with
`InvalidParameter` when the resolved threshold is ≤ 0, before processing
any item; the instance is left unchanged when `reset_state` is false,
while when `reset_state` is true the caller-requested reset has already
been applied when the error is raised. -/
theorem C6_invalid_parameter_amended (n : ℤ) (ε δ : ℝ) (rand : ℕ → ℚ)
    (threshold : ℤ) (pollRate : ℕ) (stream : List (Option α)) (s : DESState α) :
    (calculate_threshold n ε δ = Except.error DESError.invalidParameter ↔
      (ε ≤ 0 ∨ 1 ≤ ε) ∨ (δ ≤ 0 ∨ 1 ≤ δ) ∨ n ≤ 0) ∧
    (threshold ≤ 0 →
      distinctRun rand threshold pollRate false stream s =
        (s, [], some DESError.invalidParameter) ∧
      distinctRun rand threshold pollRate true stream s =
        (DES.reset, [], some DESError.invalidParameter)) := by
  constructor
  · simp only [calculate_threshold]
    split_ifs with h1 h2 h3 <;> simp_all
  · intro ht
    constructor <;> simp [distinctRun, ht]

/-- C6 witness: with threshold resolved to 0 and no reset requested, the
call raises `InvalidParameter` and leaves the instance state unchanged. -/
theorem C6_invalid_parameter_amended_witness :
    distinctRun (fun _ => (0 : ℚ)) 0 10 false [] (DES.reset : DESState ℕ) =
      (DES.reset, [], some DESError.invalidParameter) :=
  ((C6_invalid_parameter_amended 1 (1/2) (1/2) (fun _ => (0 : ℚ)) 0 10 []
      (DES.reset : DESState ℕ)).2 (le_refl 0)).1

/-- C9 counterexample: the loop condition
`while (item := next(stream, None)) is not None` cannot distinguish a
yielded `None` from exhaustion, so for an item source that produces the
hashable items `0`, `None`, `1` only the prefix before `None` is
processed: the run consumes `[0]` alone and estimates 1, while the same
run on the source without the `None` processes both items and estimates
2 — the claim's "processing every item the source produces" fails. -/
theorem C9_consumption_counterexample :
    consumedItems [some 0, none, some 1] = ([0] : List ℕ) ∧
    consumedItems [some 0, none, some 1] ≠ ([0, 1] : List ℕ) ∧
    distinct (fun _ => (1 : ℚ)/4) 10 10 false [some 0, none, some 1]
      (DES.reset : DESState ℕ) = Except.ok 1 ∧
    distinct (fun _ => (1 : ℚ)/4) 10 10 false [some 0, some 1]
      (DES.reset : DESState ℕ) = Except.ok 2 := by
  norm_num [consumedItems, distinct, distinctRun, distinctLoop, stepItem,
    afterInsert, downsampleStep, setEstimate, DES.reset]

/-- C9 (amended): given a positive resolved threshold, `DES.distinct`
consumes the items strictly once, in order, up to (and excluding) the
first `None` the source yields; for a source that never yields `None`
this is every produced item, until exhaustion.  The declared stream size
enters only through the resolved threshold, and the run is a total
function of the consumed items — a declared/actual mismatch never causes
a failure or an infinite loop. -/
theorem C9_consumption_amended (stream : List (Option α)) (h : none ∉ stream) :
    consumedItems stream = stream.filterMap id ∧
    (∀ (rand : ℕ → ℚ) (threshold : ℤ) (pollRate : ℕ) (s : DESState α),
       0 < threshold →
       distinctRun rand threshold pollRate false stream s =
         distinctLoop rand threshold.toNat pollRate (stream.filterMap id) 0 s) := by
  have hc : consumedItems stream = stream.filterMap id := by
    induction stream with
    | nil => rfl
    | cons a t ih =>
        simp only [List.mem_cons, not_or] at h
        cases a with
        | none => exact absurd rfl h.1
        | some x => simp [consumedItems, ih h.2]
  refine ⟨hc, fun rand threshold pollRate s ht => ?_⟩
  simp [distinctRun, not_le.mpr ht, hc]

/-- C9 witness: a `None`-free two-item source is consumed whole. -/
theorem C9_consumption_amended_witness :
    consumedItems [some 1, some 2] =
      (([some 1, some 2] : List (Option ℕ)).filterMap id) :=
  (C9_consumption_amended [some 1, some 2] (by simp)).1

end DES
